import Mathlib

/-!
Verification of the Coinbase ingestion pipeline (src/ingestion/coinbase/main.py).

Shallow embedding conventions:
- Python floats are modelled as exact rationals; the aggregation code only
  compares, copies and adds values, so the algebraic structure is preserved.
- A timezone-aware datetime is modelled by its wall-clock reading in seconds
  (the seconds-since-epoch value of the displayed calendar fields) together
  with its UTC offset in seconds; the absolute instant is wall - offset.
- Bucket keys in the source are ISO-8601 strings of hour-aligned UTC
  datetimes; isoformat/isoparse are inverse on those, so a key is modelled by
  the bucket-start instant in seconds.
- The aggregation dict (a defaultdict in insertion order) is modelled as an
  association list with unique keys in insertion order.
-/

/-- Wall-clock reading plus UTC offset, both in seconds; models an aware
Python datetime as produced by dateutil isoparse. -/
structure Timestamp where
  wall : ℤ
  offset : ℤ
  deriving DecidableEq, Repr

/-- The absolute instant denoted by an aware datetime, in seconds. -/
def Timestamp.instant (t : Timestamp) : ℤ := t.wall - t.offset

/-- Truncation of a seconds count down to the enclosing hour boundary. -/
def hourFloor (s : ℤ) : ℤ := 3600 * (Int.fdiv s 3600)

/-- Models line 96 of main.py, t.replace(minute=0, second=0, microsecond=0,
tzinfo=timezone.utc): the sub-hour wall-clock fields are zeroed and the
offset is REPLACED by zero (not converted), so the instant of the resulting
key is the hour-floor of the wall-clock reading. -/
def bucketKey (t : Timestamp) : ℤ := hourFloor t.wall

/-- Models the spec sentence of section 4.2: given a trade timestamp t and
interval I = 1 hour, key = floor(t, I) in UTC, i.e. the hour-floor of the
absolute instant. Written from the words of the spec, for comparison with
bucketKey which is written from the source. -/
def bucketKeySpec (t : Timestamp) : ℤ := hourFloor t.instant

/-- The OHLCV accumulator of main.py lines 26-51.  Price fields start as
none (Python None) and volume starts at zero. -/
structure OHLCV where
  open_ : Option ℚ
  high : Option ℚ
  low : Option ℚ
  close : Option ℚ
  volume : ℚ
  deriving DecidableEq, Repr

/-- Models OHLCV.__init__ (lines 27-32). -/
def OHLCV.init : OHLCV :=
  { open_ := none, high := none, low := none, close := none, volume := 0 }

/-- Models OHLCV.add_tick (lines 34-40). -/
def OHLCV.add_tick (b : OHLCV) (price size : ℚ) : OHLCV :=
  { open_ := match b.open_ with
      | none => some price
      | some o => some o
    high := match b.high with
      | none => some price
      | some h => if price > h then some price else some h
    low := match b.low with
      | none => some price
      | some l => if price < l then some price else some l
    close := some price
    volume := b.volume + size }

/-- A persistence row (lines 43-51); the timestamp field holds the
bucket-start instant that the source serialises with isoformat. -/
structure Row where
  timestamp : ℤ
  symbol : String
  open_ : Option ℚ
  high : Option ℚ
  low : Option ℚ
  close : Option ℚ
  volume : ℚ
  deriving DecidableEq, Repr

/-- Models OHLCV.to_row (lines 42-51). -/
def OHLCV.to_row (b : OHLCV) (symbol : String) (ts : ℤ) : Row :=
  { timestamp := ts
    symbol := symbol
    open_ := b.open_
    high := b.high
    low := b.low
    close := b.close
    volume := b.volume }

/-- Applies a list of (price, size) ticks to a fresh accumulator, left to
right, as repeated calls to add_tick. -/
def applyTicks (ticks : List (ℚ × ℚ)) : OHLCV :=
  ticks.foldl (fun b t => b.add_tick t.1 t.2) OHLCV.init

/-- The aggregation dict self.agg (line 58): insertion-ordered association
list from bucket key to accumulator. -/
abbrev Agg := List (ℤ × OHLCV)

/-- Models self.agg[key].add_tick(price, size) on a defaultdict (lines 98 and
141): the existing entry is updated in place, or a fresh accumulator is
created at the end of the dict and the tick applied to it. -/
def aggAddTick : Agg → ℤ → ℚ → ℚ → Agg
  | [], key, price, size => [(key, OHLCV.init.add_tick price size)]
  | (k, b) :: rest, key, price, size =>
      if k = key then (k, b.add_tick price size) :: rest
      else (k, b) :: aggAddTick rest key price size

/-- The keys selected for flushing (line 106): every stored key whose
bucket-start instant is strictly before the current hour boundary. -/
def toFlushKeys (agg : Agg) (now : ℤ) : List ℤ :=
  (agg.map Prod.fst).filter (fun k => decide (k < hourFloor now))

/-- Result of one maybe_flush_old_buckets call: the remaining dict, the batch
of rows handed to the sink, and whether a write was attempted (line 113,
rows non-empty). -/
structure FlushResult where
  agg : Agg
  rows : List Row
  wrote : Bool
  deriving DecidableEq, Repr

/-- Models CoinbaseIngestor.maybe_flush_old_buckets (lines 102-114): keys
strictly older than the current hour are popped in dict order, each popped
accumulator becomes a row, and a write is attempted exactly when the batch
is non-empty.  Popping the to_flush keys one by one from a unique-key dict
is the same as partitioning the dict on the boundary predicate. -/
def maybe_flush_old_buckets (agg : Agg) (symbol : String) (now : ℤ) : FlushResult :=
  let current_hour := hourFloor now
  let rows := (agg.filter (fun kv => decide (kv.1 < current_hour))).map
      (fun kv => kv.2.to_row symbol kv.1)
  { agg := agg.filter (fun kv => decide (¬ kv.1 < current_hour))
    rows := rows
    wrote := decide (rows ≠ []) }

/-- An inbound JSON object on the WS path, or the REST ticker body: the type
tag and the three fields the ingestor reads, each possibly absent. -/
structure Msg where
  type_ : String
  price : Option ℚ
  size : Option ℚ
  time : Option Timestamp
  deriving DecidableEq, Repr

/-- Models CoinbaseIngestor.handle_trade_msg (lines 90-100).  float(None)
and isoparse(None) raise TypeError, which this function does not catch, so a
missing price or time field is an error Except value; a missing size is
defaulted to 0.0 (line 93). -/
def handle_trade_msg (agg : Agg) (symbol : String) (data : Msg) (now : ℤ) :
    Except String FlushResult :=
  match data.price with
  | none => .error "TypeError: float() argument is None"
  | some price =>
    let size := data.size.getD 0
    match data.time with
    | none => .error "TypeError: isoparse() argument is None"
    | some t =>
      let key := bucketKey t
      .ok (maybe_flush_old_buckets (aggAddTick agg key price size) symbol now)

/-- Models the per-message body of the connect_ws read loop (lines 74-81):
a message that fails JSON decoding (modelled as none) is skipped by the
continue, a decoded message is handed to handle_trade_msg only when its type
is the string match, and any exception raised by handle_trade_msg
propagates out of the read loop (there is no try around it). -/
def process_ws_msg (agg : Agg) (symbol : String) (msg : Option Msg) (now : ℤ) :
    Except String FlushResult :=
  match msg with
  | none => .ok { agg := agg, rows := [], wrote := false }
  | some data =>
      if data.type_ = "match" then handle_trade_msg agg symbol data now
      else .ok { agg := agg, rows := [], wrote := false }

/-- Models the REST fallback cycle body of run (lines 134-142): price is
required (float(None) raises), size defaults to 0.0, a missing time field
falls back to the current wall-clock instant (offset zero), and the tick is
routed through the same dict and flush path. -/
def rest_fallback_tick (agg : Agg) (symbol : String) (ticker : Msg) (now : ℤ) :
    Except String FlushResult :=
  match ticker.price with
  | none => .error "TypeError: float() argument is None"
  | some price =>
    let size := ticker.size.getD 0
    let t := ticker.time.getD { wall := now, offset := 0 }
    let key := bucketKey t
    .ok (maybe_flush_old_buckets (aggAddTick agg key price size) symbol now)

/-- Outcome of one write_rows_bq call, as recorded in the log. -/
inductive SinkLog where
  | insertErrors (errors : List String)
  | inserted (n : Nat)
  deriving DecidableEq, Repr

/-- Models CoinbaseIngestor.write_rows_bq (lines 116-123): the client call
returns a (possibly empty) list of per-row errors; a non-empty list is
logged as an error and the function returns normally either way — no
exception reaches the caller and no ingestion state is touched. -/
def write_rows_bq (rows : List Row) (errors : List String) : SinkLog :=
  if errors ≠ [] then .insertErrors errors else .inserted rows.length

/-- One flush followed by the sink call of lines 113-114: when the batch is
non-empty the rows are written (the sink outcome is only logged), otherwise
no write is attempted.  Returns the post-step dict and the sink log. -/
def flush_and_write (agg : Agg) (symbol : String) (now : ℤ) (errors : List String) :
    Agg × List SinkLog :=
  let fr := maybe_flush_old_buckets agg symbol now
  if fr.rows ≠ [] then (fr.agg, [write_rows_bq fr.rows errors]) else (fr.agg, [])

/-- One fully-parsed trade absorbed and flushed, with the sink outcome for
the flush (if any) supplied by the backend. -/
def ingest_tick_with_sink (agg : Agg) (symbol : String) (key : ℤ) (price size : ℚ)
    (now : ℤ) (errors : List String) : Agg × List SinkLog :=
  flush_and_write (aggAddTick agg key price size) symbol now errors

/-- Reachable dict states of one ingestor: the dict starts empty, and every
step (live WS match or REST fallback) applies one tick and then runs the
flush.  The wall clock at each step is arbitrary. -/
inductive Reachable : Agg → Prop where
  | init : Reachable []
  | tick (s : Agg) (key : ℤ) (price size : ℚ) (symbol : String) (now : ℤ)
      (h : Reachable s) :
      Reachable (maybe_flush_old_buckets (aggAddTick s key price size) symbol now).agg

/-! Helper lemmas about a single accumulator. -/

theorem add_tick_close (b : OHLCV) (p s : ℚ) : (b.add_tick p s).close = some p := rfl

theorem add_tick_volume (b : OHLCV) (p s : ℚ) :
    (b.add_tick p s).volume = b.volume + s := rfl

theorem add_tick_open_of_some (b : OHLCV) (p s o : ℚ) (h : b.open_ = some o) :
    (b.add_tick p s).open_ = some o := by
  simp [OHLCV.add_tick, h]

theorem add_tick_high_of_none (b : OHLCV) (p s : ℚ) (h : b.high = none) :
    (b.add_tick p s).high = some p := by
  simp [OHLCV.add_tick, h]

theorem add_tick_high_of_some (b : OHLCV) (p s h0 : ℚ) (h : b.high = some h0) :
    (b.add_tick p s).high = some (max h0 p) := by
  simp only [OHLCV.add_tick, h]
  rcases le_total h0 p with hle | hle
  · rw [max_eq_right hle]
    by_cases hlt : h0 < p
    · simp [hlt]
    · have hab : h0 = p := le_antisymm hle (not_lt.mp hlt)
      simp [hab]
  · rw [max_eq_left hle]
    have hnb : ¬ h0 < p := not_lt.mpr hle
    simp [hnb]

theorem add_tick_low_of_none (b : OHLCV) (p s : ℚ) (h : b.low = none) :
    (b.add_tick p s).low = some p := by
  simp [OHLCV.add_tick, h]

theorem add_tick_low_of_some (b : OHLCV) (p s l0 : ℚ) (h : b.low = some l0) :
    (b.add_tick p s).low = some (min l0 p) := by
  simp only [OHLCV.add_tick, h]
  rcases le_total p l0 with hle | hle
  · rw [min_eq_right hle]
    by_cases hlt : p < l0
    · simp [hlt]
    · have hab : p = l0 := le_antisymm hle (not_lt.mp hlt)
      simp [hab]
  · rw [min_eq_left hle]
    have hnb : ¬ p < l0 := not_lt.mpr hle
    simp [hnb]

theorem applyTicks_concat (ticks : List (ℚ × ℚ)) (t : ℚ × ℚ) :
    applyTicks (ticks ++ [t]) = (applyTicks ticks).add_tick t.1 t.2 := by
  simp [applyTicks, List.foldl_append]

theorem foldl_open_of_some (ts : List (ℚ × ℚ)) :
    ∀ (b : OHLCV) (o : ℚ), b.open_ = some o →
      (ts.foldl (fun b t => b.add_tick t.1 t.2) b).open_ = some o := by
  induction ts with
  | nil => intro b o h; exact h
  | cons t ts ih =>
      intro b o h
      exact ih _ _ (add_tick_open_of_some b t.1 t.2 o h)

theorem applyTicks_open (t : ℚ × ℚ) (ts : List (ℚ × ℚ)) :
    (applyTicks (t :: ts)).open_ = some t.1 := by
  have hinit : (OHLCV.init.add_tick t.1 t.2).open_ = some t.1 := rfl
  exact foldl_open_of_some ts _ t.1 hinit

theorem foldl_volume (ts : List (ℚ × ℚ)) :
    ∀ b : OHLCV, (ts.foldl (fun b t => b.add_tick t.1 t.2) b).volume =
      b.volume + (ts.map Prod.snd).sum := by
  induction ts with
  | nil => intro b; simp
  | cons t ts ih =>
      intro b
      rw [List.foldl_cons, ih, add_tick_volume]
      simp [add_assoc]

theorem applyTicks_high_spec (ticks : List (ℚ × ℚ)) (hne : ticks ≠ []) :
    ∃ hi, (applyTicks ticks).high = some hi ∧ hi ∈ ticks.map Prod.fst ∧
      ∀ p ∈ ticks.map Prod.fst, p ≤ hi := by
  induction ticks using List.reverseRecOn with
  | nil => exact absurd rfl hne
  | append_singleton l t ih =>
      rcases eq_or_ne l [] with rfl | hl
      · refine ⟨t.1, ?_, by simp, by simp⟩
        rw [applyTicks_concat]
        exact add_tick_high_of_none _ _ _ rfl
      · obtain ⟨hi, hhigh, hmem, hbound⟩ := ih hl
        refine ⟨max hi t.1, ?_, ?_, ?_⟩
        · rw [applyTicks_concat]
          exact add_tick_high_of_some _ _ _ _ hhigh
        · rcases max_choice hi t.1 with hmax | hmax <;> rw [hmax] <;> simp_all
        · intro p hp
          rw [List.map_append, List.mem_append] at hp
          rcases hp with hp | hp
          · exact le_trans (hbound p hp) (le_max_left _ _)
          · simp only [List.map_cons, List.map_nil, List.mem_singleton] at hp
            rw [hp]
            exact le_max_right _ _

theorem applyTicks_low_spec (ticks : List (ℚ × ℚ)) (hne : ticks ≠ []) :
    ∃ lo, (applyTicks ticks).low = some lo ∧ lo ∈ ticks.map Prod.fst ∧
      ∀ p ∈ ticks.map Prod.fst, lo ≤ p := by
  induction ticks using List.reverseRecOn with
  | nil => exact absurd rfl hne
  | append_singleton l t ih =>
      rcases eq_or_ne l [] with rfl | hl
      · refine ⟨t.1, ?_, by simp, by simp⟩
        rw [applyTicks_concat]
        exact add_tick_low_of_none _ _ _ rfl
      · obtain ⟨lo, hlow, hmem, hbound⟩ := ih hl
        refine ⟨min lo t.1, ?_, ?_, ?_⟩
        · rw [applyTicks_concat]
          exact add_tick_low_of_some _ _ _ _ hlow
        · rcases min_choice lo t.1 with hmin | hmin <;> rw [hmin] <;> simp_all
        · intro p hp
          rw [List.map_append, List.mem_append] at hp
          rcases hp with hp | hp
          · exact le_trans (min_le_left _ _) (hbound p hp)
          · simp only [List.map_cons, List.map_nil, List.mem_singleton] at hp
            rw [hp]
            exact min_le_right _ _

/-! Helper lemmas about the aggregation dict and the flush step. -/

theorem mem_toFlushKeys (agg : Agg) (now k : ℤ) :
    k ∈ toFlushKeys agg now ↔ k ∈ agg.map Prod.fst ∧ k < hourFloor now := by
  simp [toFlushKeys, List.mem_filter]

theorem flush_agg_eq (agg : Agg) (symbol : String) (now : ℤ) :
    (maybe_flush_old_buckets agg symbol now).agg =
      agg.filter (fun kv => decide (¬ kv.1 < hourFloor now)) := rfl

theorem flush_rows_eq (agg : Agg) (symbol : String) (now : ℤ) :
    (maybe_flush_old_buckets agg symbol now).rows =
      (agg.filter (fun kv => decide (kv.1 < hourFloor now))).map
        (fun kv => kv.2.to_row symbol kv.1) := rfl

theorem mem_flush_agg (agg : Agg) (symbol : String) (now : ℤ) (kv : ℤ × OHLCV) :
    kv ∈ (maybe_flush_old_buckets agg symbol now).agg ↔
      kv ∈ agg ∧ ¬ kv.1 < hourFloor now := by
  rw [flush_agg_eq, List.mem_filter]
  simp

theorem evicted_keys_not_in_flush_agg (agg : Agg) (symbol : String) (now : ℤ) :
    ∀ k ∈ toFlushKeys agg now,
      k ∉ (maybe_flush_old_buckets agg symbol now).agg.map Prod.fst := by
  intro k hk hmem
  rw [mem_toFlushKeys] at hk
  simp only [List.mem_map] at hmem
  obtain ⟨kv, hkv, rfl⟩ := hmem
  rw [mem_flush_agg] at hkv
  exact hkv.2 hk.2

/-- C1: for every non-empty sequence of ticks applied to one accumulator,
open is the price of the first tick, close the price of the last tick,
high and low are the maximum and minimum of all prices seen, and volume
is the sum of all sizes. -/
theorem ohlcv_fold_matches_tick_sequence (ticks : List (ℚ × ℚ)) (hne : ticks ≠ []) :
    (applyTicks ticks).open_ = (ticks.map Prod.fst).head? ∧
    (applyTicks ticks).close = (ticks.map Prod.fst).getLast? ∧
    (∃ hi, (applyTicks ticks).high = some hi ∧ hi ∈ ticks.map Prod.fst ∧
      ∀ p ∈ ticks.map Prod.fst, p ≤ hi) ∧
    (∃ lo, (applyTicks ticks).low = some lo ∧ lo ∈ ticks.map Prod.fst ∧
      ∀ p ∈ ticks.map Prod.fst, lo ≤ p) ∧
    (applyTicks ticks).volume = (ticks.map Prod.snd).sum := by
  refine ⟨?_, ?_, applyTicks_high_spec ticks hne, applyTicks_low_spec ticks hne, ?_⟩
  · obtain ⟨t, ts, rfl⟩ := List.exists_cons_of_ne_nil hne
    rw [applyTicks_open]
    simp
  · rcases List.eq_nil_or_concat ticks with rfl | ⟨l, t, rfl⟩
    · exact absurd rfl hne
    · rw [List.concat_eq_append, applyTicks_concat, add_tick_close]
      simp
  · have h := foldl_volume ticks OHLCV.init
    simpa [applyTicks, OHLCV.init] using h

/-- Witness for C1 at the round-trip example of the spec, ticks
(100,1), (105,2), (95,1). -/
theorem ohlcv_fold_matches_tick_sequence_witness :
    (([((100 : ℚ), (1 : ℚ)), (105, 2), (95, 1)] : List (ℚ × ℚ)) ≠ []) ∧
    ((applyTicks [((100 : ℚ), (1 : ℚ)), (105, 2), (95, 1)]).open_ =
        (([((100 : ℚ), (1 : ℚ)), (105, 2), (95, 1)] : List (ℚ × ℚ)).map Prod.fst).head? ∧
      (applyTicks [((100 : ℚ), (1 : ℚ)), (105, 2), (95, 1)]).close =
        (([((100 : ℚ), (1 : ℚ)), (105, 2), (95, 1)] : List (ℚ × ℚ)).map Prod.fst).getLast? ∧
      (∃ hi, (applyTicks [((100 : ℚ), (1 : ℚ)), (105, 2), (95, 1)]).high = some hi ∧
        hi ∈ ([((100 : ℚ), (1 : ℚ)), (105, 2), (95, 1)] : List (ℚ × ℚ)).map Prod.fst ∧
        ∀ p ∈ ([((100 : ℚ), (1 : ℚ)), (105, 2), (95, 1)] : List (ℚ × ℚ)).map Prod.fst, p ≤ hi) ∧
      (∃ lo, (applyTicks [((100 : ℚ), (1 : ℚ)), (105, 2), (95, 1)]).low = some lo ∧
        lo ∈ ([((100 : ℚ), (1 : ℚ)), (105, 2), (95, 1)] : List (ℚ × ℚ)).map Prod.fst ∧
        ∀ p ∈ ([((100 : ℚ), (1 : ℚ)), (105, 2), (95, 1)] : List (ℚ × ℚ)).map Prod.fst, lo ≤ p) ∧
      (applyTicks [((100 : ℚ), (1 : ℚ)), (105, 2), (95, 1)]).volume =
        (([((100 : ℚ), (1 : ℚ)), (105, 2), (95, 1)] : List (ℚ × ℚ)).map Prod.snd).sum) :=
  ⟨by decide, ohlcv_fold_matches_tick_sequence _ (by decide)⟩

/-- C10: calling to_row on an accumulator that never received a tick does
not fail; it returns a row whose four price fields are all null and whose
volume is zero. -/
theorem to_row_on_fresh_bar (symbol : String) (ts : ℤ) :
    OHLCV.init.to_row symbol ts =
      { timestamp := ts, symbol := symbol, open_ := none, high := none,
        low := none, close := none, volume := 0 } := rfl

/-- C2: after every trade is absorbed, the keys selected for eviction are
exactly the stored keys whose bucket-start instant is strictly before the
current hour boundary; in particular the in-progress current bucket is never
selected, and every selected key is removed from the dict. -/
theorem flush_selects_exactly_stale_keys (agg : Agg) (symbol : String) (now : ℤ) :
    (∀ k, k ∈ toFlushKeys agg now ↔ k ∈ agg.map Prod.fst ∧ k < hourFloor now) ∧
    hourFloor now ∉ toFlushKeys agg now ∧
    (∀ k ∈ toFlushKeys agg now,
      k ∉ (maybe_flush_old_buckets agg symbol now).agg.map Prod.fst) := by
  refine ⟨fun k => mem_toFlushKeys agg now k, ?_, evicted_keys_not_in_flush_agg agg symbol now⟩
  intro hmem
  rw [mem_toFlushKeys] at hmem
  exact lt_irrefl _ hmem.2

/-- Witness for C2 on a dict holding the buckets at instants 0 and 7200 with
the wall clock inside the 7200 hour: the 0 bucket is selected and removed,
the 7200 bucket is not selected. -/
theorem flush_selects_exactly_stale_keys_witness :
    ((0 : ℤ) ∈ toFlushKeys [((0 : ℤ), OHLCV.init.add_tick 100 1),
        ((7200 : ℤ), OHLCV.init.add_tick 105 2)] 7205 ∧
      (7200 : ℤ) ∉ toFlushKeys [((0 : ℤ), OHLCV.init.add_tick 100 1),
        ((7200 : ℤ), OHLCV.init.add_tick 105 2)] 7205) ∧
    (0 : ℤ) ∉ (maybe_flush_old_buckets [((0 : ℤ), OHLCV.init.add_tick 100 1),
        ((7200 : ℤ), OHLCV.init.add_tick 105 2)] "BTC-USD" 7205).agg.map Prod.fst :=
  ⟨by decide,
   (flush_selects_exactly_stale_keys [((0 : ℤ), OHLCV.init.add_tick 100 1),
      ((7200 : ℤ), OHLCV.init.add_tick 105 2)] "BTC-USD" 7205).2.2 0 (by decide)⟩

/-- Every entry left in the dict by a flush is at or after the boundary used
for that flush. -/
theorem flush_agg_entries_not_stale (agg : Agg) (symbol : String) (now : ℤ) :
    ∀ kv ∈ (maybe_flush_old_buckets agg symbol now).agg, ¬ kv.1 < hourFloor now := by
  intro kv hkv
  exact ((mem_flush_agg agg symbol now kv).mp hkv).2

/-- C8: flushing is idempotent at a fixed boundary: a second flush at the
same hour boundary with no ticks in between selects no keys, builds an empty
batch, attempts no write, and leaves the dict unchanged. -/
theorem flush_idempotent (agg : Agg) (symbol : String) (now1 now2 : ℤ)
    (h : hourFloor now1 = hourFloor now2) :
    toFlushKeys (maybe_flush_old_buckets agg symbol now1).agg now2 = [] ∧
    (maybe_flush_old_buckets (maybe_flush_old_buckets agg symbol now1).agg symbol now2).rows
      = [] ∧
    (maybe_flush_old_buckets (maybe_flush_old_buckets agg symbol now1).agg symbol now2).wrote
      = false ∧
    (maybe_flush_old_buckets (maybe_flush_old_buckets agg symbol now1).agg symbol now2).agg
      = (maybe_flush_old_buckets agg symbol now1).agg := by
  have hstable : ∀ kv ∈ (maybe_flush_old_buckets agg symbol now1).agg,
      ¬ kv.1 < hourFloor now2 := by
    intro kv hkv
    rw [← h]
    exact flush_agg_entries_not_stale agg symbol now1 kv hkv
  have hkeys : toFlushKeys (maybe_flush_old_buckets agg symbol now1).agg now2 = [] := by
    rw [toFlushKeys, List.filter_eq_nil_iff]
    intro k hk
    simp only [List.mem_map] at hk
    obtain ⟨kv, hkv, rfl⟩ := hk
    simpa using hstable kv hkv
  have hrows :
      (maybe_flush_old_buckets (maybe_flush_old_buckets agg symbol now1).agg symbol now2).rows
        = [] := by
    rw [flush_rows_eq]
    have hfil : (maybe_flush_old_buckets agg symbol now1).agg.filter
        (fun kv => decide (kv.1 < hourFloor now2)) = [] := by
      rw [List.filter_eq_nil_iff]
      intro kv hkv
      simpa using hstable kv hkv
    rw [hfil]
    rfl
  refine ⟨hkeys, hrows, ?_, ?_⟩
  · have : (maybe_flush_old_buckets (maybe_flush_old_buckets agg symbol now1).agg symbol
        now2).wrote = decide ((maybe_flush_old_buckets (maybe_flush_old_buckets agg symbol
        now1).agg symbol now2).rows ≠ []) := rfl
    rw [this, hrows]
    decide
  · rw [flush_agg_eq, List.filter_eq_self]
    intro kv hkv
    simpa using hstable kv hkv

/-- Witness for C8 with a dict holding instants 0 and 7200 and two clock
readings 7205 and 7300 inside the same hour. -/
theorem flush_idempotent_witness :
    hourFloor 7205 = hourFloor 7300 ∧
    toFlushKeys (maybe_flush_old_buckets [((0 : ℤ), OHLCV.init.add_tick 100 1),
        ((7200 : ℤ), OHLCV.init.add_tick 105 2)] "BTC-USD" 7205).agg 7300 = [] ∧
    (maybe_flush_old_buckets (maybe_flush_old_buckets [((0 : ℤ), OHLCV.init.add_tick 100 1),
        ((7200 : ℤ), OHLCV.init.add_tick 105 2)] "BTC-USD" 7205).agg "BTC-USD" 7300).rows
      = [] ∧
    (maybe_flush_old_buckets (maybe_flush_old_buckets [((0 : ℤ), OHLCV.init.add_tick 100 1),
        ((7200 : ℤ), OHLCV.init.add_tick 105 2)] "BTC-USD" 7205).agg "BTC-USD" 7300).wrote
      = false ∧
    (maybe_flush_old_buckets (maybe_flush_old_buckets [((0 : ℤ), OHLCV.init.add_tick 100 1),
        ((7200 : ℤ), OHLCV.init.add_tick 105 2)] "BTC-USD" 7205).agg "BTC-USD" 7300).agg
      = (maybe_flush_old_buckets [((0 : ℤ), OHLCV.init.add_tick 100 1),
        ((7200 : ℤ), OHLCV.init.add_tick 105 2)] "BTC-USD" 7205).agg :=
  ⟨by decide, flush_idempotent [((0 : ℤ), OHLCV.init.add_tick 100 1),
    ((7200 : ℤ), OHLCV.init.add_tick 105 2)] "BTC-USD" 7205 7300 (by decide)⟩

/-- The post-step dict of a flush-and-write is the flushed dict, whatever
the sink outcome is. -/
theorem flush_and_write_fst (agg : Agg) (symbol : String) (now : ℤ) (errors : List String) :
    (flush_and_write agg symbol now errors).1 = (maybe_flush_old_buckets agg symbol now).agg := by
  simp only [flush_and_write]
  split <;> rfl

/-- C7: no atomicity across eviction and persistence: every selected key is
already absent from the dict the step continues with, and when the write
fails the evicted buckets are not restored — the post-write dict is exactly
the already-evicted dict. -/
theorem eviction_precedes_write_no_restore (agg : Agg) (symbol : String) (now : ℤ)
    (e : List String) (_he : e ≠ []) :
    (∀ k ∈ toFlushKeys agg now,
      k ∉ (maybe_flush_old_buckets agg symbol now).agg.map Prod.fst) ∧
    (flush_and_write agg symbol now e).1 = (maybe_flush_old_buckets agg symbol now).agg ∧
    (∀ k ∈ toFlushKeys agg now, k ∉ (flush_and_write agg symbol now e).1.map Prod.fst) := by
  refine ⟨evicted_keys_not_in_flush_agg agg symbol now, flush_and_write_fst agg symbol now e, ?_⟩
  intro k hk
  rw [flush_and_write_fst]
  exact evicted_keys_not_in_flush_agg agg symbol now k hk

/-- Witness for C7: the stale 0 bucket is evicted and, with a failing sink
response, stays lost. -/
theorem eviction_precedes_write_no_restore_witness :
    (["insert failed"] : List String) ≠ [] ∧
    (0 : ℤ) ∉ (flush_and_write [((0 : ℤ), OHLCV.init.add_tick 100 1),
      ((7200 : ℤ), OHLCV.init.add_tick 105 2)] "BTC-USD" 7205 ["insert failed"]).1.map Prod.fst :=
  ⟨by decide,
   (eviction_precedes_write_no_restore [((0 : ℤ), OHLCV.init.add_tick 100 1),
      ((7200 : ℤ), OHLCV.init.add_tick 105 2)] "BTC-USD" 7205 ["insert failed"]
      (by decide)).2.2 0 (by decide)⟩

/-- C5: a failing sink response is logged as insert errors and the batch
dropped; the dict the ingestor continues with does not depend on the sink
outcome, and any subsequent tick is processed identically after a failed or
a successful write. -/
theorem sink_failure_isolated (agg : Agg) (symbol : String) (key : ℤ) (price size : ℚ)
    (now : ℤ) (e1 e2 : List String) (he : e1 ≠ []) :
    (∀ rows : List Row, write_rows_bq rows e1 = .insertErrors e1) ∧
    (ingest_tick_with_sink agg symbol key price size now e1).1 =
      (ingest_tick_with_sink agg symbol key price size now e2).1 ∧
    (∀ (key2 : ℤ) (price2 size2 : ℚ) (now2 : ℤ) (e3 : List String),
      ingest_tick_with_sink (ingest_tick_with_sink agg symbol key price size now e1).1
          symbol key2 price2 size2 now2 e3 =
        ingest_tick_with_sink (ingest_tick_with_sink agg symbol key price size now e2).1
          symbol key2 price2 size2 now2 e3) := by
  have hsame : (ingest_tick_with_sink agg symbol key price size now e1).1 =
      (ingest_tick_with_sink agg symbol key price size now e2).1 := by
    simp only [ingest_tick_with_sink]
    rw [flush_and_write_fst, flush_and_write_fst]
  refine ⟨?_, hsame, ?_⟩
  · intro rows
    simp [write_rows_bq, he]
  · intro key2 price2 size2 now2 e3
    rw [hsame]

/-- Witness for C5: after a failed write the dict equals the dict after a
successful write of the same batch. -/
theorem sink_failure_isolated_witness :
    (["insert failed"] : List String) ≠ [] ∧
    (ingest_tick_with_sink [((0 : ℤ), OHLCV.init.add_tick 100 1)] "BTC-USD" 7200 105 2 7205
        ["insert failed"]).1 =
      (ingest_tick_with_sink [((0 : ℤ), OHLCV.init.add_tick 100 1)] "BTC-USD" 7200 105 2 7205
        []).1 :=
  ⟨by decide,
   (sink_failure_isolated [((0 : ℤ), OHLCV.init.add_tick 100 1)] "BTC-USD" 7200 105 2 7205
      ["insert failed"] [] (by decide)).2.1⟩

/-- Applying a tick always leaves the open field set. -/
theorem add_tick_open_isSome (b : OHLCV) (p s : ℚ) : (b.add_tick p s).open_.isSome := by
  cases h : b.open_ <;> simp [OHLCV.add_tick, h]

/-- The defaultdict update preserves the all-bars-ticked invariant: the
touched entry has a tick applied and every other entry is unchanged. -/
theorem aggAddTick_preserves_open (key : ℤ) (price size : ℚ) :
    ∀ s : Agg, (∀ kv ∈ s, kv.2.open_.isSome) →
      ∀ kv ∈ aggAddTick s key price size, kv.2.open_.isSome := by
  intro s
  induction s with
  | nil =>
      intro _ kv hkv
      simp only [aggAddTick, List.mem_singleton] at hkv
      rw [hkv]
      exact add_tick_open_isSome _ _ _
  | cons hd tl ih =>
      obtain ⟨k, b⟩ := hd
      intro h kv hkv
      by_cases hk : k = key
      · simp only [aggAddTick, if_pos hk] at hkv
        rcases List.mem_cons.mp hkv with rfl | hkv
        · exact add_tick_open_isSome _ _ _
        · exact h kv (List.mem_cons_of_mem _ hkv)
      · simp only [aggAddTick, if_neg hk] at hkv
        rcases List.mem_cons.mp hkv with rfl | hkv
        · exact h _ (List.mem_cons_self _ _)
        · exact ih (fun kv hkv => h kv (List.mem_cons_of_mem _ hkv)) kv hkv

/-- In every reachable dict state, every stored bar has its open field set,
i.e. received at least one tick. -/
theorem reachable_bars_have_open (s : Agg) (h : Reachable s) :
    ∀ kv ∈ s, kv.2.open_.isSome := by
  induction h with
  | init => intro kv hkv; cases hkv
  | tick s key price size symbol now _ ih =>
      intro kv hkv
      rw [mem_flush_agg] at hkv
      exact aggAddTick_preserves_open key price size s ih kv hkv.1

/-- C4: in every reachable ingestor state every stored bar has open set, and
every row built by the flush that follows a further tick comes from a bar
with at least one tick applied (its open field is set). -/
theorem reachable_rows_from_ticked_bars (s : Agg) (h : Reachable s) :
    (∀ kv ∈ s, kv.2.open_.isSome) ∧
    (∀ (key : ℤ) (price size : ℚ) (symbol : String) (now : ℤ),
      ∀ r ∈ (maybe_flush_old_buckets (aggAddTick s key price size) symbol now).rows,
        r.open_.isSome) := by
  refine ⟨reachable_bars_have_open s h, ?_⟩
  intro key price size symbol now r hr
  rw [flush_rows_eq] at hr
  simp only [List.mem_map] at hr
  obtain ⟨kv, hkv, rfl⟩ := hr
  rw [List.mem_filter] at hkv
  exact aggAddTick_preserves_open key price size s (reachable_bars_have_open s h) kv hkv.1

/-- Witness for C4 at the state reached by one tick at instant 7200 with the
clock at 7205. -/
theorem reachable_rows_from_ticked_bars_witness :
    (∀ kv ∈ (maybe_flush_old_buckets (aggAddTick [] 7200 100 1) "BTC-USD" 7205).agg,
      kv.2.open_.isSome) ∧
    (∀ (key : ℤ) (price size : ℚ) (symbol : String) (now : ℤ),
      ∀ r ∈ (maybe_flush_old_buckets (aggAddTick
          (maybe_flush_old_buckets (aggAddTick [] 7200 100 1) "BTC-USD" 7205).agg
          key price size) symbol now).rows,
        r.open_.isSome) :=
  reachable_rows_from_ticked_bars _
    (Reachable.tick [] 7200 100 1 "BTC-USD" 7205 Reachable.init)

/-- C9: a trade/match message or ticker body lacking the size field is not
dropped: the tick is applied with size defaulted to zero, leaving volume
unchanged while open/high/low/close are updated from the price exactly as
for any size; a missing price field is not defaulted and raises instead. -/
theorem missing_size_defaults_to_zero (agg : Agg) (symbol : String) (now : ℤ)
    (ty : String) (p : ℚ) (t : Timestamp) :
    (handle_trade_msg agg symbol
        { type_ := ty, price := some p, size := none, time := some t } now
      = .ok (maybe_flush_old_buckets (aggAddTick agg (bucketKey t) p 0) symbol now)) ∧
    (rest_fallback_tick agg symbol
        { type_ := ty, price := some p, size := none, time := some t } now
      = .ok (maybe_flush_old_buckets (aggAddTick agg (bucketKey t) p 0) symbol now)) ∧
    (∀ (b : OHLCV) (sz : ℚ),
      (b.add_tick p 0).volume = b.volume ∧
      (b.add_tick p 0).open_ = (b.add_tick p sz).open_ ∧
      (b.add_tick p 0).high = (b.add_tick p sz).high ∧
      (b.add_tick p 0).low = (b.add_tick p sz).low ∧
      (b.add_tick p 0).close = some p) ∧
    (∀ (sz : Option ℚ) (tm : Option Timestamp),
      (handle_trade_msg agg symbol
        { type_ := ty, price := none, size := sz, time := tm } now).isOk = false) ∧
    (∀ (sz : Option ℚ) (tm : Option Timestamp),
      (rest_fallback_tick agg symbol
        { type_ := ty, price := none, size := sz, time := tm } now).isOk = false) := by
  refine ⟨rfl, rfl, ?_, fun sz tm => rfl, fun sz tm => rfl⟩
  intro b sz
  refine ⟨?_, rfl, rfl, rfl, rfl⟩
  simp [OHLCV.add_tick]

/-- C6 counterexample: a match message whose price field is missing is not
dropped silently; handle_trade_msg raises (float(None) is a TypeError), the
read loop of connect_ws has no handler around it, so the exception leaves
the stream loop and the run loop treats it as a connectivity failure. -/
theorem ws_match_missing_field_raises_cex :
    (process_ws_msg [] "BTC-USD"
        (some { type_ := "match", price := none, size := some 1,
                time := some { wall := 0, offset := 0 } }) 0).isOk = false := rfl

/-- C6 as amended: undecodable JSON and messages whose type is not match are
dropped silently (no tick, dict unchanged, no error); a match message whose
price and time fields are present is processed (a missing size is defaulted);
but a match message missing price or time raises out of the stream loop and
is treated as a connectivity failure. -/
theorem ws_msg_error_handling_amended (agg : Agg) (symbol : String) (now : ℤ) :
    (process_ws_msg agg symbol none now = .ok { agg := agg, rows := [], wrote := false }) ∧
    (∀ m : Msg, m.type_ ≠ "match" →
      process_ws_msg agg symbol (some m) now
        = .ok { agg := agg, rows := [], wrote := false }) ∧
    (∀ m : Msg, m.type_ = "match" → m.price.isSome → m.time.isSome →
      (process_ws_msg agg symbol (some m) now).isOk = true) ∧
    (∀ m : Msg, m.type_ = "match" → (m.price = none ∨ m.time = none) →
      (process_ws_msg agg symbol (some m) now).isOk = false) := by
  refine ⟨rfl, ?_, ?_, ?_⟩
  · intro m hm
    simp [process_ws_msg, hm]
  · intro m hm hp ht
    obtain ⟨p, hp2⟩ := Option.isSome_iff_exists.mp hp
    obtain ⟨t, ht2⟩ := Option.isSome_iff_exists.mp ht
    simp only [process_ws_msg, hm, handle_trade_msg, hp2, ht2, if_true, if_pos]
    rfl
  · intro m hm hcase
    rcases hcase with hp | ht
    · simp only [process_ws_msg, hm, handle_trade_msg, hp, if_true, if_pos]
      rfl
    · cases hpc : m.price with
      | none =>
          simp only [process_ws_msg, hm, handle_trade_msg, hpc, if_true, if_pos]
          rfl
      | some p =>
          simp only [process_ws_msg, hm, handle_trade_msg, hpc, ht, if_true, if_pos]
          rfl

/-- Witness for the amended C6: a non-match message is dropped silently and
a match message without price raises. -/
theorem ws_msg_error_handling_amended_witness :
    (process_ws_msg [] "BTC-USD"
        (some { type_ := "subscriptions", price := none, size := none, time := none }) 0
      = .ok { agg := [], rows := [], wrote := false }) ∧
    (process_ws_msg [] "BTC-USD"
        (some { type_ := "match", price := none, size := none,
                time := some { wall := 0, offset := 0 } }) 0).isOk = false :=
  ⟨(ws_msg_error_handling_amended [] "BTC-USD" 0).2.1 _ (by decide),
   (ws_msg_error_handling_amended [] "BTC-USD" 0).2.2.2 _ rfl (Or.inl rfl)⟩

/-- C3 counterexample: for the timestamp 10:30:00+05:00 (wall 37800, offset
18000) the derived key is the 10:00 UTC instant 36000, not the UTC floor
18000 = 05:00 UTC; and the same absolute instant written as 05:30:00Z (wall
19800, offset 0) has an equal UTC truncation yet a different key, refuting
both the floor equation and the if-and-only-if. -/
theorem bucket_key_not_utc_floor_cex :
    bucketKey { wall := 37800, offset := 18000 } ≠
      bucketKeySpec { wall := 37800, offset := 18000 } ∧
    Timestamp.instant { wall := 37800, offset := 18000 } =
      Timestamp.instant { wall := 19800, offset := 0 } ∧
    bucketKeySpec { wall := 37800, offset := 18000 } =
      bucketKeySpec { wall := 19800, offset := 0 } ∧
    bucketKey { wall := 37800, offset := 18000 } ≠
      bucketKey { wall := 19800, offset := 0 } := by
  decide

/-- C3 as amended: the derived key is the hour-floor of the wall-clock
reading with the offset discarded (then labelled UTC); for timestamps whose
offset is zero this coincides with floor(t, I) in UTC; and two timestamps
map to the same key exactly when their wall-clock hour truncations are
equal. -/
theorem bucket_key_wall_clock_floor (t t1 t2 : Timestamp) :
    bucketKey t = hourFloor t.wall ∧
    (t.offset = 0 → bucketKey t = bucketKeySpec t) ∧
    (bucketKey t1 = bucketKey t2 ↔ hourFloor t1.wall = hourFloor t2.wall) := by
  refine ⟨rfl, ?_, Iff.rfl⟩
  intro h
  simp [bucketKey, bucketKeySpec, Timestamp.instant, h]

/-- Witness for the amended C3 at a zero-offset timestamp. -/
theorem bucket_key_wall_clock_floor_witness :
    bucketKey { wall := 7300, offset := 0 } = bucketKeySpec { wall := 7300, offset := 0 } :=
  (bucket_key_wall_clock_floor { wall := 7300, offset := 0 }
    { wall := 0, offset := 0 } { wall := 0, offset := 0 }).2.1 rfl
